import Mathlib

/-!
Shallow embedding of the nestalgic CPU core (src/src/cpu.cpp, src/include/cpu.h):
the CPUBus with its 2 KiB mirrored RAM window, the CPUStatus bitset, and the
CPU fetch/decode/execute engine (Clock, Reset, FetchOperand, LDA, opcode table).

Machine integers are modelled as Nat with explicit `% 2^16` where the C++
performs a narrowing conversion on uint16_t; `std::array::at` (bounds-checked,
throwing) is modelled as an Option-returning access, and the `std::cerr`
diagnostic channel as a counter of emitted reports.  The null member-function
pointer obtained from `unordered_map::operator[]` on a missing opcode is
modelled as `Option.none`; invoking it (undefined behavior in C++) makes
`CPU.Clock` return `none`.
-/

namespace Nestalgic

/-- Constant CPU_RAM_SIZE from include/cpu.h: 2048 bytes of internal RAM. -/
def CPU_RAM_SIZE : Nat := 0x0800

/-- Constant CPU_RAM_ADDRESS_MASK from src/cpu.cpp: mirroring mask. -/
def CPU_RAM_ADDRESS_MASK : Nat := 0x07FF

/-- Constant CPU_RAM_MAX_RANGE from src/cpu.cpp: top of the RAM window. -/
def CPU_RAM_MAX_RANGE : Nat := 0x1FFF

/-- Constant RESET_VECTOR_LOW_BYTE from src/cpu.cpp. -/
def RESET_VECTOR_LOW_BYTE : Nat := 0xFFFC

/-- Constant STACK_POINTER_DEFAULT from src/cpu.cpp. -/
def STACK_POINTER_DEFAULT : Nat := 0xFF

/-- Constant BITS_PER_BYTE from src/cpu.cpp. -/
def BITS_PER_BYTE : Nat := 8

/-- Model of `std::array<uint8_t, N>::at` for reads: bounds-checked element
access; `none` models the `std::out_of_range` exception. -/
def listAt : List Nat → Nat → Option Nat
  | [], _ => none
  | v :: _, 0 => some v
  | _ :: xs, n + 1 => listAt xs n

/-- Model of `std::array<uint8_t, N>::at` used as the target of an assignment:
`none` models the `std::out_of_range` exception, otherwise the updated array. -/
def listSetAt : List Nat → Nat → Nat → Option (List Nat)
  | [], _, _ => none
  | _ :: xs, 0, v => some (v :: xs)
  | x :: xs, n + 1, v => (listSetAt xs n v).map (fun ys => x :: ys)

/-- CPUBus state: the 2 KiB RAM array `ram_` plus the diagnostic channel
(`std::cerr`), modelled as a count of emitted error reports. -/
structure CPUBus where
  ram : List Nat
  diagnostics : Nat
  deriving Repr, DecidableEq

/-- CPUBus::Read from src/cpu.cpp.  In the RAM window the address is masked
and served from `ram_` (bounds-checked); otherwise an error is logged and the
safe default 0 returned.  `none` models an exception escaping `at`. -/
def CPUBus.Read (b : CPUBus) (address : Nat) : Option (Nat × CPUBus) :=
  if address ≤ CPU_RAM_MAX_RANGE then
    (listAt b.ram (address &&& CPU_RAM_ADDRESS_MASK)).map (fun v => (v, b))
  else
    some (0, { b with diagnostics := b.diagnostics + 1 })

/-- CPUBus::Write from src/cpu.cpp.  In the RAM window the masked cell is
assigned through `at`; the error log that follows the `if` has no `return`
before it, so the code falls through and logs on every call, in range or
not (the in-range branch therefore both stores and logs). -/
def CPUBus.Write (b : CPUBus) (address data : Nat) : Option CPUBus :=
  if address ≤ CPU_RAM_MAX_RANGE then
    match listSetAt b.ram (address &&& CPU_RAM_ADDRESS_MASK) data with
    | none => none
    | some ram2 => some { ram := ram2, diagnostics := b.diagnostics + 1 }
  else
    some { b with diagnostics := b.diagnostics + 1 }

/-- Flag bit positions of enum CPUStatusFlag (include/cpu.h). -/
def Negative : Nat := 7

/-- Flag bit position Overflow = 6 (include/cpu.h). -/
def Overflow : Nat := 6

/-- Flag bit position Decimal = 3 (include/cpu.h). -/
def Decimal : Nat := 3

/-- Flag bit position InterruptDisable = 2 (include/cpu.h). -/
def InterruptDisable : Nat := 2

/-- Flag bit position Zero = 1 (include/cpu.h). -/
def Zero : Nat := 1

/-- Flag bit position Carry = 0 (include/cpu.h). -/
def Carry : Nat := 0

/-- CPU::CPUStatus (include/cpu.h): a `std::bitset<8>` of processor flags,
modelled as a natural number below 256. -/
structure CPUStatus where
  flags : Nat
  deriving Repr, DecidableEq

/-- CPUStatus::Set — `flags.set(flag, value)`: sets or clears one bit.
For flag positions below 8 and flags below 256 this is exactly the
`std::bitset<8>` behavior. -/
def CPUStatus.Set (p : CPUStatus) (flag : Nat) (value : Bool) : CPUStatus :=
  if value then { flags := p.flags ||| (1 <<< flag) }
  else { flags := p.flags &&& (0xFF ^^^ (1 <<< flag)) }

/-- CPUStatus::Get — `flags.test(flag)`. -/
def CPUStatus.Get (p : CPUStatus) (flag : Nat) : Bool := p.flags.testBit flag

/-- CPUStatus::FromByte — `flags = std::bitset<8>(value)`: keeps the low
8 bits of the value. -/
def CPUStatus.FromByte (value : Nat) : CPUStatus := { flags := value % 256 }

/-- CPUStatus::ToByte — `static_cast<uint8_t>(flags.to_ulong())`. -/
def CPUStatus.ToByte (p : CPUStatus) : Nat := p.flags

/-- AddressingMode enum (include/cpu.h): only Immediate in the current slice. -/
inductive AddressingMode where
  | Immediate
  deriving Repr, DecidableEq

/-- Names of the CPU member functions an OpcodeEntry can point at; the current
slice implements only LDA. -/
inductive OperationName where
  | LDA
  deriving Repr, DecidableEq

/-- OpcodeEntry (include/cpu.h).  `operation` is a member-function pointer;
`none` models the null pointer produced by value-initialization when
`unordered_map::operator[]` is applied to a missing key. -/
structure OpcodeEntry where
  addressingMode : AddressingMode
  operation : Option OperationName
  cycleCount : Int
  deriving Repr, DecidableEq

/-- Contents of `operations_` as loaded by CPU::LoadOperations:
only opcode 0xA9 → {Immediate, &CPU::LDA, 2}. -/
def operationsFind (opcode : Nat) : Option OpcodeEntry :=
  if opcode = 0xA9 then some ⟨AddressingMode.Immediate, some OperationName.LDA, 2⟩
  else none

/-- Semantics of `operations_[opcode]` in CPU::Clock: `unordered_map`
`operator[]` default-inserts a value-initialized entry (null member pointer,
cycle count 0) when the key is absent. -/
def operationsIndex (opcode : Nat) : OpcodeEntry :=
  (operationsFind opcode).getD ⟨AddressingMode.Immediate, none, 0⟩

/-- Full CPU state (include/cpu.h data members) together with the bus the
constructor binds. -/
structure CPUState where
  bus : CPUBus
  a : Nat
  x : Nat
  y : Nat
  pc : Nat
  s : Nat
  p : CPUStatus
  opcode : Nat
  operand : Nat
  remaining : Int
  deriving Repr, DecidableEq

/-- CPU::CPU (constructor): binds the bus and loads the opcode table; the
data members start at their in-class initializers (include/cpu.h lines
126-139). -/
def initCPU (b : CPUBus) : CPUState :=
  { bus := b, a := 0, x := 0, y := 0, pc := 0, s := STACK_POINTER_DEFAULT,
    p := { flags := 0 }, opcode := 0, operand := 0, remaining := 0 }

/-- CPU::Read — delegates to the bus. -/
def CPU.ReadBus (st : CPUState) (address : Nat) : Option (Nat × CPUState) :=
  (st.bus.Read address).map (fun r => (r.1, { st with bus := r.2 }))

/-- CPU::FetchOperand.  Immediate mode: read the byte at PC and post-increment
PC (uint16_t wraparound). -/
def CPU.FetchOperand (mode : AddressingMode) (st : CPUState) : Option CPUState :=
  match mode with
  | AddressingMode.Immediate =>
    match CPU.ReadBus st st.pc with
    | none => none
    | some (v, st1) => some { st1 with operand := v, pc := (st1.pc + 1) % 65536 }

/-- CPU::LDA — copy the resolved operand into A, set Negative iff bit 7 of A,
set Zero iff A is zero. -/
def CPU.LDA (st : CPUState) : CPUState :=
  let a := st.operand
  let p1 := st.p.Set Negative (decide ((a &&& 0x80) ≠ 0))
  let p2 := p1.Set Zero (decide (a = 0))
  { st with a := a, p := p2 }

/-- Dispatch through a (non-null) member-function pointer of the opcode
table. -/
def runOperation (opn : OperationName) (st : CPUState) : CPUState :=
  match opn with
  | OperationName.LDA => CPU.LDA st

/-- Predicate on the pre-state of a Clock call: the fetch/decode/execute path
is taken exactly when the remaining-cycle counter is zero (cpu.cpp line 64). -/
def ClockFetches (st : CPUState) : Prop := st.remaining = 0

instance (st : CPUState) : Decidable (ClockFetches st) := by
  unfold ClockFetches; infer_instance

/-- CPU::Clock (src/cpu.cpp lines 63-74).  If the counter is zero: fetch the
opcode at PC (post-incrementing PC), index the opcode table, resolve the
operand, invoke the operation through the member pointer, and add the entry
cycle count to the counter.  In every case the counter is then decremented
by one.  `none` models a crash: an exception out of the bus access, or the
call through a null member-function pointer for an opcode with no table
entry. -/
def CPU.Clock (st : CPUState) : Option CPUState :=
  if st.remaining = 0 then
    match CPU.ReadBus st st.pc with
    | none => none
    | some (op, st0) =>
      let st1 := { st0 with opcode := op, pc := (st0.pc + 1) % 65536 }
      let entry := operationsIndex op
      match CPU.FetchOperand entry.addressingMode st1 with
      | none => none
      | some st2 =>
        match entry.operation with
        | none => none
        | some opn =>
          let st3 := runOperation opn st2
          some { st3 with remaining := st3.remaining + entry.cycleCount - 1 }
  else
    some { st with remaining := st.remaining - 1 }

/-- CPU::Reset (src/cpu.cpp lines 76-94): zero A, X, Y; S to 0xFF; clear the
status byte; load PC little-endian from the reset vector at 0xFFFC/0xFFFD via
the bus; add the 7-cycle startup cost to the counter. -/
def CPU.Reset (st : CPUState) : Option CPUState :=
  let st0 := { st with a := 0, x := 0, y := 0, s := STACK_POINTER_DEFAULT,
                       p := CPUStatus.FromByte 0 }
  match CPU.ReadBus st0 RESET_VECTOR_LOW_BYTE with
  | none => none
  | some (lo, st1) =>
    match CPU.ReadBus st1 (RESET_VECTOR_LOW_BYTE + 1) with
    | none => none
    | some (hi, st2) =>
      some { st2 with pc := ((hi <<< BITS_PER_BYTE) ||| lo) % 65536,
                      remaining := st2.remaining + 7 }

/-- Fresh zero-initialized 2 KiB RAM (`std::array<uint8_t, CPU_RAM_SIZE> ram_{}`). -/
def freshRam : List Nat := List.replicate CPU_RAM_SIZE 0

/-- Fresh CPUBus with zeroed RAM and an empty diagnostic channel. -/
def freshBus : CPUBus := { ram := freshRam, diagnostics := 0 }

/-- RAM holding the two-byte program `LDA #$42` at address 0. -/
def ramLDA : List Nat := (freshRam.set 0 0xA9).set 1 0x42

/-- Bus whose RAM holds `LDA #$42` at address 0. -/
def busLDA : CPUBus := { ram := ramLDA, diagnostics := 0 }

/-- CPU state in the middle of an instruction: three cycles still owed. -/
def busyState : CPUState := { initCPU busLDA with remaining := 3 }

/-- CPU state whose pending operand is 0x80, used to exercise LDA. -/
def stLDA80 : CPUState := { initCPU freshBus with operand := 0x80 }

theorem freshBus_ram_length : freshBus.ram.length = CPU_RAM_SIZE := by
  simp [freshBus, freshRam]

theorem ramLDA_length : ramLDA.length = CPU_RAM_SIZE := by
  rw [ramLDA, List.length_set, List.length_set, freshRam, List.length_replicate]

theorem masked_lt_size (address : Nat) :
    address &&& CPU_RAM_ADDRESS_MASK < CPU_RAM_SIZE :=
  lt_of_le_of_lt Nat.and_le_right (by decide)

theorem listAt_eq_getElem? (xs : List Nat) (i : Nat) : listAt xs i = xs[i]? := by
  induction xs generalizing i with
  | nil => cases i <;> simp [listAt]
  | cons x xs ih => cases i <;> simp [listAt, ih]

theorem listSetAt_eq_set (xs : List Nat) (i v : Nat) :
    listSetAt xs i v = if i < xs.length then some (xs.set i v) else none := by
  induction xs generalizing i with
  | nil => cases i <;> simp [listSetAt]
  | cons x xs ih =>
    cases i with
    | zero => simp [listSetAt]
    | succ n =>
      simp only [listSetAt, ih, List.length_cons]
      by_cases h : n < xs.length
      · simp [h, Nat.succ_lt_succ h, List.set]
      · have h2 : ¬ n + 1 < xs.length + 1 := by omega
        simp [h, h2]

theorem read_bus_ram (b : CPUBus) (a v : Nat) (b1 : CPUBus)
    (h : b.Read a = some (v, b1)) : b1.ram = b.ram := by
  unfold CPUBus.Read at h
  by_cases hr : a ≤ CPU_RAM_MAX_RANGE
  · rw [if_pos hr] at h
    rcases hl : listAt b.ram (a &&& CPU_RAM_ADDRESS_MASK) with _ | w <;> rw [hl] at h
    · simp at h
    · simp at h
      rw [← h.2]
  · rw [if_neg hr] at h
    simp at h
    rw [← h.2]

theorem read_total (b : CPUBus) (address : Nat) (hwf : b.ram.length = CPU_RAM_SIZE) :
    ∃ v b1, b.Read address = some (v, b1) ∧ b1.ram = b.ram := by
  by_cases hr : address ≤ CPU_RAM_MAX_RANGE
  · have hidx : address &&& CPU_RAM_ADDRESS_MASK < b.ram.length := by
      rw [hwf]; exact masked_lt_size address
    exact ⟨b.ram.get ⟨_, hidx⟩, b,
      by simp [CPUBus.Read, listAt_eq_getElem?, hr, List.getElem?_eq_getElem hidx], rfl⟩
  · exact ⟨0, { b with diagnostics := b.diagnostics + 1 },
      by simp [CPUBus.Read, hr], rfl⟩

theorem testBit_255 (f : Nat) (hf : f < 8) : Nat.testBit 255 f = true := by
  interval_cases f <;> decide

theorem get_set_self (p : CPUStatus) (f : Nat) (hf : f < 8) (v : Bool) :
    (p.Set f v).Get f = v := by
  cases v <;>
    simp [CPUStatus.Set, CPUStatus.Get, Nat.one_shiftLeft,
      Nat.testBit_two_pow, testBit_255 f hf]

theorem get_set_other (p : CPUStatus) (f g : Nat) (hg : g < 8) (hne : g ≠ f) (v : Bool) :
    (p.Set f v).Get g = p.Get g := by
  have hfg : f ≠ g := Ne.symm hne
  cases v <;>
    simp [CPUStatus.Set, CPUStatus.Get, Nat.one_shiftLeft,
      Nat.testBit_two_pow, testBit_255 g hg, hfg]

theorem and_bit7 (v : Nat) : decide ((v &&& 0x80) ≠ 0) = v.testBit 7 := by
  rw [(by norm_num : (0x80 : Nat) = 2 ^ 7), Nat.and_two_pow]
  cases h : v.testBit 7 <;> simp

/-- C8: for every byte value b in [0, 255], ToByte after FromByte returns
exactly b, and FromByte after ToByte restores the named-bit form: the byte
form and the named-bit form of the status register convert losslessly in
both directions. -/
theorem status_byte_roundtrip (b : Nat) (hb : b ≤ 255) :
    (CPUStatus.FromByte b).ToByte = b ∧
    (∀ p : CPUStatus, p.flags ≤ 255 → CPUStatus.FromByte p.ToByte = p) := by
  constructor
  · simp [CPUStatus.FromByte, CPUStatus.ToByte, Nat.mod_eq_of_lt (by omega : b < 256)]
  · intro p hp
    simp [CPUStatus.FromByte, CPUStatus.ToByte,
      Nat.mod_eq_of_lt (by omega : p.flags < 256)]

theorem status_byte_roundtrip_witness :
    (CPUStatus.FromByte 0xC3).ToByte = 0xC3 :=
  (status_byte_roundtrip 0xC3 (by decide)).1

/-- C2: for every logical address a in the 8 KiB window [0x0000, 0x1FFF] and
every byte v, writing v at a and then reading at any address a2 of the window
that agrees with a on the low 11 bits returns v: all such addresses alias the
same backing RAM byte. -/
theorem ram_mirroring (b : CPUBus) (a v a2 : Nat)
    (hwf : b.ram.length = CPU_RAM_SIZE)
    (ha : a ≤ CPU_RAM_MAX_RANGE) (ha2 : a2 ≤ CPU_RAM_MAX_RANGE)
    (halias : a2 &&& CPU_RAM_ADDRESS_MASK = a &&& CPU_RAM_ADDRESS_MASK) :
    ∃ b1, b.Write a v = some b1 ∧ (b1.Read a2).map Prod.fst = some v := by
  have hidx : a &&& CPU_RAM_ADDRESS_MASK < b.ram.length := by
    rw [hwf]; exact masked_lt_size a
  refine ⟨{ ram := b.ram.set (a &&& CPU_RAM_ADDRESS_MASK) v,
            diagnostics := b.diagnostics + 1 }, ?_, ?_⟩
  · simp [CPUBus.Write, listSetAt_eq_set, ha, hidx]
  · have hset : (b.ram.set (a &&& CPU_RAM_ADDRESS_MASK) v)[a &&& CPU_RAM_ADDRESS_MASK]? =
        some v := List.getElem?_set_eq_of_lt v hidx
    simp [CPUBus.Read, listAt_eq_getElem?, ha2, halias, hset]

theorem ram_mirroring_witness :
    ∃ b1, freshBus.Write 0x0003 0xAB = some b1 ∧
      (b1.Read 0x0803).map Prod.fst = some 0xAB :=
  ram_mirroring freshBus 0x0003 0xAB 0x0803 freshBus_ram_length
    (by decide) (by decide) (by decide)

/-- C9: for every 16-bit address, the physical index computed by
CPUBus::Read and CPUBus::Write is strictly below the 2 KiB array size, so the
bounds-checked accesses cannot fail and both operations are total. -/
theorem bus_access_total (b : CPUBus) (address v : Nat)
    (hwf : b.ram.length = CPU_RAM_SIZE) :
    (address &&& CPU_RAM_ADDRESS_MASK) < CPU_RAM_SIZE ∧
    (∃ r, b.Read address = some r) ∧
    (∃ b2, b.Write address v = some b2) := by
  have hidx : address &&& CPU_RAM_ADDRESS_MASK < b.ram.length := by
    rw [hwf]; exact masked_lt_size address
  refine ⟨masked_lt_size address, ?_, ?_⟩
  · by_cases hr : address ≤ CPU_RAM_MAX_RANGE
    · exact ⟨((b.ram.get ⟨_, hidx⟩), b), by
        simp [CPUBus.Read, listAt_eq_getElem?, hr, List.getElem?_eq_getElem hidx]⟩
    · exact ⟨(0, { b with diagnostics := b.diagnostics + 1 }), by
        simp [CPUBus.Read, hr]⟩
  · by_cases hr : address ≤ CPU_RAM_MAX_RANGE
    · exact ⟨{ ram := b.ram.set (address &&& CPU_RAM_ADDRESS_MASK) v,
               diagnostics := b.diagnostics + 1 }, by
        simp [CPUBus.Write, listSetAt_eq_set, hr, hidx]⟩
    · exact ⟨{ b with diagnostics := b.diagnostics + 1 }, by
        simp [CPUBus.Write, hr]⟩

theorem bus_access_total_witness :
    (0xFFFC &&& CPU_RAM_ADDRESS_MASK) < CPU_RAM_SIZE ∧
    (∃ r, freshBus.Read 0xFFFC = some r) ∧
    (∃ b2, freshBus.Write 0xFFFC 0x12 = some b2) :=
  bus_access_total freshBus 0xFFFC 0x12 freshBus_ram_length

/-- C6: for every address in [0x2000, 0xFFFF] (outside the declared RAM
window), Read returns the safe default 0, Write leaves the RAM contents
unchanged, the condition is reported on the diagnostic channel, and neither
operation fails the caller (both return `some`). -/
theorem bus_out_of_range_defaults (b : CPUBus) (address v : Nat)
    (h1 : 0x2000 ≤ address) (h2 : address ≤ 0xFFFF) :
    b.Read address = some (0, { b with diagnostics := b.diagnostics + 1 }) ∧
    b.Write address v = some { b with diagnostics := b.diagnostics + 1 } := by
  have hr : ¬ address ≤ CPU_RAM_MAX_RANGE := by
    simp only [CPU_RAM_MAX_RANGE]; omega
  exact ⟨by simp [CPUBus.Read, hr], by simp [CPUBus.Write, hr]⟩

theorem bus_out_of_range_defaults_witness :
    freshBus.Read 0x4020 = some (0, { freshBus with diagnostics := freshBus.diagnostics + 1 }) ∧
    freshBus.Write 0x4020 0x7E = some { freshBus with diagnostics := freshBus.diagnostics + 1 } :=
  bus_out_of_range_defaults freshBus 0x4020 0x7E (by decide) (by decide)

/-- C7 failing input: the claim says exactly one of {serve address, report
invalid} occurs on any single bus operation, with the diagnostic emitted iff
the address is outside [0x0000, 0x1FFF].  CPUBus::Write(0x0000, 0x05) on a
fresh bus both stores the byte in RAM (the address is served) and emits the
invalid-address diagnostic, because the log statement after the range check
is not in an else branch and Write does not return early. -/
theorem write_serves_and_reports :
    ∃ b1, freshBus.Write 0x0000 0x05 = some b1 ∧
      listAt b1.ram 0 = some 0x05 ∧
      b1.diagnostics = freshBus.diagnostics + 1 := by
  have hidx : 0 < freshBus.ram.length := by
    rw [freshBus_ram_length]; decide
  refine ⟨{ ram := freshBus.ram.set 0 0x05, diagnostics := freshBus.diagnostics + 1 },
    ?_, ?_, rfl⟩
  · unfold CPUBus.Write
    rw [if_pos (by decide : (0x0000 : Nat) ≤ CPU_RAM_MAX_RANGE), listSetAt_eq_set,
      (by decide : (0x0000 : Nat) &&& CPU_RAM_ADDRESS_MASK = 0), if_pos hidx]
  · rw [listAt_eq_getElem?]
    exact List.getElem?_set_eq_of_lt 0x05 hidx

/-- C5: executing LDA with resolved operand v sets A := v, sets Negative iff
bit 7 of v is set, sets Zero iff v = 0, and leaves every other status flag
and every other register (X, Y, S, PC) and the bus unchanged. -/
theorem lda_semantics (st : CPUState) :
    (CPU.LDA st).a = st.operand ∧
    (CPU.LDA st).p.Get Negative = st.operand.testBit 7 ∧
    (CPU.LDA st).p.Get Zero = decide (st.operand = 0) ∧
    (∀ f, f < 8 → f ≠ Negative → f ≠ Zero → (CPU.LDA st).p.Get f = st.p.Get f) ∧
    (CPU.LDA st).x = st.x ∧ (CPU.LDA st).y = st.y ∧ (CPU.LDA st).s = st.s ∧
    (CPU.LDA st).pc = st.pc ∧ (CPU.LDA st).bus = st.bus := by
  have hp : (CPU.LDA st).p =
      (st.p.Set Negative (decide ((st.operand &&& 0x80) ≠ 0))).Set Zero
        (decide (st.operand = 0)) := rfl
  refine ⟨rfl, ?_, ?_, ?_, rfl, rfl, rfl, rfl, rfl⟩
  · rw [hp, get_set_other _ Zero Negative (by decide) (by decide),
      get_set_self _ Negative (by decide), and_bit7]
  · rw [hp, get_set_self _ Zero (by decide)]
  · intro f hf hf7 hf1
    rw [hp, get_set_other _ Zero f hf hf1, get_set_other _ Negative f hf hf7]

theorem lda_semantics_witness :
    (CPU.LDA stLDA80).p.Get InterruptDisable = stLDA80.p.Get InterruptDisable :=
  (lda_semantics stLDA80).2.2.2.1 InterruptDisable (by decide) (by decide) (by decide)

/-- C4 (amended): after Reset, A = X = Y = 0, S = 0xFF, every status flag is
clear, the pending counter is charged +7, RAM is untouched, and PC is the
little-endian combination of the bytes the bus returns at 0xFFFC/0xFFFD;
since those addresses lie outside the CPUBus RAM window, both reads return
the safe default 0 and PC = 0 for every bus state. -/
theorem reset_semantics (st : CPUState) :
    ∃ st1, CPU.Reset st = some st1 ∧
      st1.a = 0 ∧ st1.x = 0 ∧ st1.y = 0 ∧ st1.s = STACK_POINTER_DEFAULT ∧
      st1.p.ToByte = 0 ∧ (∀ f, st1.p.Get f = false) ∧
      st1.remaining = st.remaining + 7 ∧
      st1.pc = 0 ∧ st1.bus.ram = st.bus.ram := by
  refine ⟨{ bus := { ram := st.bus.ram, diagnostics := st.bus.diagnostics + 1 + 1 },
            a := 0, x := 0, y := 0, pc := 0, s := STACK_POINTER_DEFAULT,
            p := CPUStatus.FromByte 0, opcode := st.opcode, operand := st.operand,
            remaining := st.remaining + 7 }, ?_, rfl, rfl, rfl, rfl, rfl, ?_, rfl, rfl, rfl⟩
  · simp [CPU.Reset, CPU.ReadBus, CPUBus.Read, RESET_VECTOR_LOW_BYTE,
      CPU_RAM_MAX_RANGE, BITS_PER_BYTE]
  · intro f
    simp [CPUStatus.FromByte, CPUStatus.Get, Nat.zero_testBit]

/-- C4 counterexample: the claim asserts that writing lo at 0xFFFC and hi at
0xFFFD through the bus and then calling Reset yields PC = (hi <<< 8 ||| lo).
Writing 0x34 at 0xFFFC and 0x12 at 0xFFFD through CPUBus::Write is a no-op
(both addresses are outside the RAM window), so Reset yields PC = 0, not
0x1234. -/
theorem reset_vector_write_counterexample :
    ∃ b1 b2 st1,
      freshBus.Write 0xFFFC 0x34 = some b1 ∧
      b1.Write 0xFFFD 0x12 = some b2 ∧
      CPU.Reset (initCPU b2) = some st1 ∧
      st1.pc = 0 ∧ ¬ st1.pc = 0x1234 := by
  refine ⟨{ ram := freshRam, diagnostics := 1 },
    { ram := freshRam, diagnostics := 2 },
    { bus := { ram := freshRam, diagnostics := 4 }, a := 0, x := 0, y := 0,
      pc := 0, s := STACK_POINTER_DEFAULT, p := CPUStatus.FromByte 0,
      opcode := 0, operand := 0, remaining := 7 }, ?_, ?_, ?_, rfl, by decide⟩
  · simp [CPUBus.Write, freshBus, CPU_RAM_MAX_RANGE]
  · simp [CPUBus.Write, CPU_RAM_MAX_RANGE]
  · simp [CPU.Reset, CPU.ReadBus, CPUBus.Read, RESET_VECTOR_LOW_BYTE,
      CPU_RAM_MAX_RANGE, BITS_PER_BYTE, initCPU]

/-- C3 failing input: opcode 0x00 (no entry in the dispatch table) fetched by
a Clock call in the idle state.  The code performs no absence check: the
`unordered_map` subscript default-inserts an entry whose member-function
pointer is null and whose cycle count is 0, FetchOperand consumes one more
byte, and the call through the null pointer is undefined behavior — modelled
here as Clock returning `none` (crash), with no diagnostic report and no
live continuation. -/
theorem clock_unknown_opcode_crash :
    operationsFind 0x00 = none ∧ CPU.Clock (initCPU freshBus) = none :=
  ⟨rfl, rfl⟩

theorem clock_fetch_lda (st : CPUState)
    (hwf : st.bus.ram.length = CPU_RAM_SIZE)
    (hidle : st.remaining = 0)
    (b1 : CPUBus) (hr : st.bus.Read st.pc = some (0xA9, b1)) :
    ∃ st1, CPU.Clock st = some st1 ∧ st1.opcode = 0xA9 ∧ st1.remaining = 1 := by
  have hb1 : b1.ram = st.bus.ram := read_bus_ram _ _ _ _ hr
  obtain ⟨w, b2, hr2, _⟩ := read_total b1 ((st.pc + 1) % 65536) (by rw [hb1, hwf])
  refine ⟨{ bus := b2, a := w, x := st.x, y := st.y,
            pc := ((st.pc + 1) % 65536 + 1) % 65536, s := st.s,
            p := (st.p.Set Negative (decide ((w &&& 0x80) ≠ 0))).Set Zero
              (decide (w = 0)),
            opcode := 0xA9, operand := w, remaining := 1 }, ?_, rfl, rfl⟩
  simp [CPU.Clock, hidle, CPU.ReadBus, hr, operationsIndex, operationsFind,
    CPU.FetchOperand, hr2, runOperation, CPU.LDA]

/-- C1: fetch/decode/execute occurs only when the pending-cycle counter is
zero (a Clock call in the mid-instruction state only decrements the counter
and changes nothing else), and after executing the instruction 0xA9 — base
cycle count c = 2, the only table entry — the counter is left at c − 1 = 1,
so the engine refuses to fetch on the first subsequent Clock call and the
counter reaches zero there, making the c-th (second) subsequent call fetch;
each call unconditionally decrements the counter by one after any fetch. -/
theorem clock_cycle_accounting :
    (∀ st : CPUState, ¬ ClockFetches st →
        CPU.Clock st = some { st with remaining := st.remaining - 1 }) ∧
    (∀ st : CPUState, st.bus.ram.length = CPU_RAM_SIZE → ClockFetches st →
      ∀ b1 : CPUBus, st.bus.Read st.pc = some (0xA9, b1) →
      ∃ st1 st2, CPU.Clock st = some st1 ∧
        st1.remaining = 1 ∧
        ¬ ClockFetches st1 ∧
        CPU.Clock st1 = some st2 ∧
        st2 = { st1 with remaining := st1.remaining - 1 } ∧
        ClockFetches st2) := by
  constructor
  · intro st h
    have h0 : ¬ st.remaining = 0 := h
    simp [CPU.Clock, h0]
  · intro st hwf hidle b1 hr
    obtain ⟨st1, h1, _, hrem1⟩ := clock_fetch_lda st hwf hidle b1 hr
    refine ⟨st1, { st1 with remaining := 0 }, h1, hrem1, ?_, ?_, ?_, rfl⟩
    · simp [ClockFetches, hrem1]
    · simp [CPU.Clock, hrem1]
    · rw [hrem1]
      norm_num

theorem clock_cycle_accounting_witness :
    (CPU.Clock busyState = some { busyState with remaining := busyState.remaining - 1 }) ∧
    (∃ st1 st2, CPU.Clock (initCPU busLDA) = some st1 ∧
      st1.remaining = 1 ∧
      ¬ ClockFetches st1 ∧
      CPU.Clock st1 = some st2 ∧
      st2 = { st1 with remaining := st1.remaining - 1 } ∧
      ClockFetches st2) :=
  ⟨clock_cycle_accounting.1 busyState (by decide),
   clock_cycle_accounting.2 (initCPU busLDA) ramLDA_length rfl busLDA rfl⟩

/-- C10: a freshly constructed CPU has A = X = Y = 0, PC = 0, S = 0xFF, all
status flags clear and no pending cycles; a Clock call made before any Reset
is therefore not rejected (the idle fetch branch is taken) and fetches its
first opcode from address 0x0000. -/
theorem fresh_cpu_state (b : CPUBus) (hwf : b.ram.length = CPU_RAM_SIZE) :
    (initCPU b).a = 0 ∧ (initCPU b).x = 0 ∧ (initCPU b).y = 0 ∧
    (initCPU b).pc = 0 ∧ (initCPU b).s = 0xFF ∧
    (∀ f, (initCPU b).p.Get f = false) ∧
    (initCPU b).remaining = 0 ∧
    ClockFetches (initCPU b) ∧
    (∀ b1 : CPUBus, b.Read 0 = some (0xA9, b1) →
      ∃ st1, CPU.Clock (initCPU b) = some st1 ∧ st1.opcode = 0xA9) := by
  refine ⟨rfl, rfl, rfl, rfl, rfl, ?_, rfl, rfl, ?_⟩
  · intro f
    simp [initCPU, CPUStatus.Get, Nat.zero_testBit]
  · intro b1 hr
    obtain ⟨st1, h1, hop, _⟩ := clock_fetch_lda (initCPU b) hwf rfl b1 hr
    exact ⟨st1, h1, hop⟩

theorem fresh_cpu_state_witness :
    (initCPU busLDA).s = 0xFF ∧
    (∃ st1, CPU.Clock (initCPU busLDA) = some st1 ∧ st1.opcode = 0xA9) :=
  ⟨(fresh_cpu_state busLDA ramLDA_length).2.2.2.2.1,
   (fresh_cpu_state busLDA ramLDA_length).2.2.2.2.2.2.2.2 busLDA rfl⟩

end Nestalgic
